import Mathlib

/-
  Verification of a scalar reverse-mode automatic-differentiation engine
  (src/engine.rs, src/engine/inner.rs) and the small neural network and
  loss built on it (src/nn.rs, src/lib.rs).

  The Rust heap of `Rc<RefCell<ValInner>>` nodes is embedded as an arena:
  a `List Node` in which every operator call appends a brand-new node and
  returns its index.  `Rc::ptr_eq` on two operand handles becomes equality
  of arena indices.  The `f32` scalars are embedded as `ℚ`; the three
  primitive `f32` routines that are not rational (`tanh`, `exp`, `powf`)
  are abstracted into an `FOps` record that the embedding is parametric
  over, with a concrete instantiation `qops` that is exact on the
  integer exponents exercised by the concrete examples below.
-/

namespace Rustgrad

/-- The primitive `f32` scalar routines the engine calls out to:
`f32::tanh`, `f32::exp` and `num_traits::Pow::pow` (`powf`). -/
structure FOps where
  ftanh : ℚ → ℚ
  fexp : ℚ → ℚ
  fpow : ℚ → ℚ → ℚ

/-- `pub enum Op` of `src/engine/inner.rs`: the producer record of a derived
node.  Operand handles are arena indices; `tanh`, `exp` and `relu` cache the
forward result, `pow` stores the constant exponent. -/
inductive Op : Type where
  | add (left right : Nat)
  | mul (left right : Nat)
  | tanh (val : Nat) (tanh : ℚ)
  | exp (val : Nat) (exp : ℚ)
  | pow (base : Nat) (exponent : ℚ)
  | relu (relu : ℚ) (prev : Nat)
deriving DecidableEq

/-- `pub struct ValInner` of `src/engine/inner.rs`: scalar data, accumulated
gradient, and the optional producing operation. -/
structure Node : Type where
  data : ℚ
  grad : ℚ
  op : Option Op
deriving DecidableEq

/-- Reading an arena slot; out-of-range reads (never produced by the
embedded constructors) yield an inert leaf. -/
def getNode (s : List Node) (i : Nat) : Node :=
  s.getD i ⟨0, 0, none⟩

def dataOf (s : List Node) (i : Nat) : ℚ :=
  (getNode s i).data

def gradOf (s : List Node) (i : Nat) : ℚ :=
  (getNode s i).grad

def opOf (s : List Node) (i : Nat) : Option Op :=
  (getNode s i).op

/-- `value.grad += δ` on the node at index `i`. -/
def updGrad (s : List Node) (i : Nat) (δ : ℚ) : List Node :=
  s.set i { getNode s i with grad := (getNode s i).grad + δ }

/-- `self.grad = g` on the node at index `i`. -/
def setGrad (s : List Node) (i : Nat) (g : ℚ) : List Node :=
  s.set i { getNode s i with grad := g }

/-- `Val::add_data`: `self.inner.borrow_mut().data += δ` (in-place mutation
of the underlying node's data; gradient and producer untouched). -/
def addData (s : List Node) (i : Nat) (δ : ℚ) : List Node :=
  s.set i { getNode s i with data := (getNode s i).data + δ }

/-- `impl AddAssign for Val`: `self.add_data(rhs.into().data())` — the
right-hand side is read once for its current data (a temporary conversion
node, when one is made, is dropped immediately), and v's node is mutated in
place. -/
def addAssign (s : List Node) (v r : Nat) : List Node :=
  addData s v (dataOf s r)

/-- `ValInner::rc`: allocate a fresh node with the given data, gradient 0 and
the given producer, returning the new arena and the node's index. -/
def rcNode (s : List Node) (d : ℚ) (op : Option Op) : List Node × Nat :=
  (s ++ [⟨d, 0, op⟩], s.length)

/-- `ValInner::add`. -/
def vadd (s : List Node) (l r : Nat) : List Node × Nat :=
  rcNode s (dataOf s l + dataOf s r) (some (Op.add l r))

/-- `ValInner::mul`. -/
def vmul (s : List Node) (l r : Nat) : List Node × Nat :=
  rcNode s (dataOf s l * dataOf s r) (some (Op.mul l r))

/-- `ValInner::neg`: `mul(value, rc(-1.0, None))`. -/
def vneg (s : List Node) (v : Nat) : List Node × Nat :=
  let m := rcNode s (-1) none
  vmul m.1 v m.2

/-- `ValInner::sub`: `add(left, neg(right))`. -/
def vsub (s : List Node) (l r : Nat) : List Node × Nat :=
  let n := vneg s r
  vadd n.1 l n.2

/-- `ValInner::pow`. -/
def vpow (F : FOps) (s : List Node) (b : Nat) (e : ℚ) : List Node × Nat :=
  rcNode s (F.fpow (dataOf s b) e) (some (Op.pow b e))

/-- `ValInner::div`: `mul(left, pow(right, -1.0))`. -/
def vdiv (F : FOps) (s : List Node) (l r : Nat) : List Node × Nat :=
  let p := vpow F s r (-1)
  vmul p.1 l p.2

/-- `ValInner::tanh`: the forward result is cached in the producer. -/
def vtanh (F : FOps) (s : List Node) (v : Nat) : List Node × Nat :=
  let t := F.ftanh (dataOf s v)
  rcNode s t (some (Op.tanh v t))

/-- `ValInner::exp`: the forward result is cached in the producer. -/
def vexp (F : FOps) (s : List Node) (v : Nat) : List Node × Nat :=
  let e := F.fexp (dataOf s v)
  rcNode s e (some (Op.exp v e))

/-- `ValInner::relu`: `if data < 0.0 { 0.0 } else { data }`, with the forward
result cached in the producer. -/
def vrelu (s : List Node) (v : Nat) : List Node × Nat :=
  let d := dataOf s v
  let d2 := if d < 0 then 0 else d
  rcNode s d2 (some (Op.relu d2 v))

/-- `Op::backward` of `src/engine/inner.rs`, one dispatch step: given the
node's producer `op` and its current gradient `grad`, add each operand's
chain-rule contribution into the operand's gradient and recurse into it
(`recurse` is `ValInner::backward_inner` at the remaining recursion budget).
The `left = right` tests embed the `Rc::ptr_eq(left, right)` aliasing
branches. -/
def opBackward (F : FOps) (recurse : List Node → Nat → List Node)
    (s : List Node) (op : Op) (grad : ℚ) : List Node :=
  match op with
  | Op.add l r =>
    if l = r then
      let s1 := updGrad s l grad
      let s2 := updGrad s1 l grad
      let s3 := recurse s2 l
      recurse s3 l
    else
      let s1 := updGrad s l grad
      let s2 := updGrad s1 r grad
      let s3 := recurse s2 l
      recurse s3 r
  | Op.mul l r =>
    if l = r then
      let s1 := updGrad s l (2 * dataOf s l * grad)
      let s2 := recurse s1 l
      recurse s2 l
    else
      let s1 := updGrad s l (dataOf s r * grad)
      let s2 := updGrad s1 r (dataOf s1 l * grad)
      let s3 := recurse s2 l
      recurse s3 r
  | Op.tanh v t =>
    recurse (updGrad s v ((1 - t ^ 2) * grad)) v
  | Op.exp v e =>
    recurse (updGrad s v (e * grad)) v
  | Op.pow b e =>
    recurse (updGrad s b (e * F.fpow (dataOf s b) (e - 1) * grad)) b
  | Op.relu r p =>
    recurse (updGrad s p (r * grad)) p

/-- `ValInner::backward_inner`: if the node at `i` has a producer, dispatch
`Op::backward` with the node's current gradient.  The extra fuel argument
bounds the recursion depth; every graph the constructors can build is a DAG
whose operand indices are strictly smaller than the node's own index, so any
fuel at least the arena length reproduces the Rust recursion exactly. -/
def backwardInner (F : FOps) : Nat → List Node → Nat → List Node
  | 0, s, _ => s
  | fuel + 1, s, i =>
    match (getNode s i).op with
    | none => s
    | some op => opBackward F (backwardInner F fuel) s op (getNode s i).grad

/-- `ValInner::backward`: `self.grad = 1.0; self.backward_inner();`. -/
def backward (F : FOps) (fuel : Nat) (s : List Node) (i : Nat) : List Node :=
  backwardInner F fuel (setGrad s i 1) i

/-- Modelled from the spec (§4.2 aliasing rule), as an alternative to
`opBackward` for comparison: for an aliased binary operand the spec
prescribes "add the left-derivative contribution, recurse, then add the
right-derivative contribution to the *same* node, recurse again" — for
aliased `Mul`, "two separate `+=` of `x.value` each followed by its own
recursive propagation".  All non-aliased arms agree with `opBackward`. -/
def opBackwardSpec (F : FOps) (recurse : List Node → Nat → List Node)
    (s : List Node) (op : Op) (grad : ℚ) : List Node :=
  match op with
  | Op.add l r =>
    if l = r then
      let s1 := updGrad s l grad
      let s2 := recurse s1 l
      let s3 := updGrad s2 l grad
      recurse s3 l
    else
      let s1 := updGrad s l grad
      let s2 := updGrad s1 r grad
      let s3 := recurse s2 l
      recurse s3 r
  | Op.mul l r =>
    if l = r then
      let s1 := updGrad s l (dataOf s l * grad)
      let s2 := recurse s1 l
      let s3 := updGrad s2 l (dataOf s2 l * grad)
      recurse s3 l
    else
      let s1 := updGrad s l (dataOf s r * grad)
      let s2 := updGrad s1 r (dataOf s1 l * grad)
      let s3 := recurse s2 l
      recurse s3 r
  | Op.tanh v t =>
    recurse (updGrad s v ((1 - t ^ 2) * grad)) v
  | Op.exp v e =>
    recurse (updGrad s v (e * grad)) v
  | Op.pow b e =>
    recurse (updGrad s b (e * F.fpow (dataOf s b) (e - 1) * grad)) b
  | Op.relu r p =>
    recurse (updGrad s p (r * grad)) p

/-- Modelled from the spec: `backwardInner` with the spec's aliasing rule
(`opBackwardSpec`) in place of the code's `Op::backward`. -/
def backwardInnerSpec (F : FOps) : Nat → List Node → Nat → List Node
  | 0, s, _ => s
  | fuel + 1, s, i =>
    match (getNode s i).op with
    | none => s
    | some op => opBackwardSpec F (backwardInnerSpec F fuel) s op (getNode s i).grad

/-- Modelled from the spec: the backward entry point running the spec's
aliasing rule. -/
def backwardSpec (F : FOps) (fuel : Nat) (s : List Node) (i : Nat) : List Node :=
  backwardInnerSpec F fuel (setGrad s i 1) i

/-- `pub struct Neuron` of `src/nn.rs`: one bias handle and a vector of
weight handles, all arena indices of leaf nodes. -/
structure Neuron : Type where
  bias : Nat
  weights : List Nat
deriving DecidableEq

/-- Allocate one leaf node per listed scalar, returning the indices in
order. -/
def pushLeaves : List Node → List ℚ → List Node × List Nat
  | s, [] => (s, [])
  | s, v :: rest =>
    let n := rcNode s v none
    let r := pushLeaves n.1 rest
    (r.1, n.2 :: r.2)

/-- `Neuron::new`: `assert!(nin > 0)` (embedded as `none`), then `nin`
weight leaves drawn from the random stream followed by one bias leaf.
`rand k` is the `k`-th value drawn from the thread rng. -/
def neuronNew (s : List Node) (rand : Nat → ℚ) (nin : Nat) :
    Option (List Node × Neuron) :=
  if nin = 0 then none
  else
    let w := pushLeaves s ((List.range nin).map rand)
    let b := rcNode w.1 (rand nin) none
    some (b.1, ⟨b.2, w.2⟩)

/-- `Neuron::parameters`: the weights (cloned) with the bias pushed on the
end. -/
def parameters (n : Neuron) : List Nat :=
  n.weights ++ [n.bias]

/-- One summand of `Neuron::call`: `x * w * &self.bias` (two `Mul` nodes). -/
def neuronTerm (s : List Node) (x w b : Nat) : List Node × Nat :=
  let t := vmul s x w
  vmul t.1 t.2 b

/-- The `reduce(|acc, v| acc + v)` loop of `Neuron::call` over the remaining
input/weight pairs. -/
def neuronAcc (b : Nat) : List Node → Nat → List (Nat × Nat) → List Node × Nat
  | s, acc, [] => (s, acc)
  | s, acc, (x, w) :: rest =>
    let t := neuronTerm s x w b
    let a := vadd t.1 acc t.2
    neuronAcc b a.1 a.2 rest

/-- `Neuron::call`: `assert_eq!(input.len(), self.weights.len())` (embedded
as `none`), then build `x_i * w_i * bias` per pair, reduce by addition, and
apply `tanh`; the `unwrap` of the empty reduction is also `none`. -/
def neuronCall (F : FOps) (s : List Node) (n : Neuron) (input : List Nat) :
    Option (List Node × Nat) :=
  if input.length = n.weights.length then
    match input.zip n.weights with
    | [] => none
    | (x, w) :: rest =>
      let t := neuronTerm s x w n.bias
      let r := neuronAcc n.bias t.1 t.2 rest
      some (vtanh F r.1 r.2)
  else none

/-- One summand of `loss` in `src/lib.rs`: `(pred - actual).pow(2.0)`.
The `rhs.into()` of the `Sub` impl converts `&Val` through `f32`, so it
allocates a fresh leaf holding the target's current data rather than
sharing the target's node. -/
def lossTerm (F : FOps) (s : List Node) (p t : Nat) : List Node × Nat :=
  let tl := rcNode s (dataOf s t) none
  let d := vsub tl.1 p tl.2
  vpow F d.1 d.2 2

/-- The `reduce(|acc, curr| acc + curr)` loop of `loss` over the remaining
prediction/target pairs. -/
def lossGo (F : FOps) : List Node → Nat → List (Nat × Nat) → List Node × Nat
  | s, acc, [] => (s, acc)
  | s, acc, (p, t) :: rest =>
    let d := lossTerm F s p t
    let a := vadd d.1 acc d.2
    lossGo F a.1 a.2 rest

/-- `loss` of `src/lib.rs`: zip predictions with targets (zipping truncates
to the shorter list), map each pair to `(pred - actual).pow(2.0)`, reduce by
addition; the `unwrap` of an empty reduction is embedded as `none`. -/
def loss (F : FOps) (s : List Node) (pred actual : List Nat) :
    Option (List Node × Nat) :=
  match pred.zip actual with
  | [] => none
  | (p, t) :: rest =>
    let d := lossTerm F s p t
    some (lossGo F d.1 d.2 rest)

/-- `f32` power restricted to the rationally-exact case: on an integer
exponent `powf` agrees with the exact integer power (the only exponents the
concrete examples below use are `2.0` and `-1.0`). -/
def qpow (x e : ℚ) : ℚ :=
  if e.den = 1 then x ^ e.num else 0

/-- A concrete instantiation of the scalar primitives, used only to run the
concrete example graphs below; those graphs never evaluate `ftanh`, `fexp`,
or a non-integer power. -/
def qops : FOps :=
  ⟨id, id, qpow⟩

/-! ### Arena access lemmas -/

theorem getNode_append {s : List Node} {i : Nat} (u : List Node)
    (h : i < s.length) : getNode (s ++ u) i = getNode s i :=
  List.getD_append s u _ i h

theorem getNode_set_self {s : List Node} {i : Nat} {n : Node}
    (h : i < s.length) : getNode (s.set i n) i = n := by
  simp [getNode, List.getD_eq_getElem?_getD, List.getElem?_set, h]

theorem getNode_set_ne {s : List Node} {i j : Nat} {n : Node}
    (h : j ≠ i) : getNode (s.set i n) j = getNode s j := by
  simp [getNode, List.getD_eq_getElem?_getD, List.getElem?_set, Ne.symm h]

theorem length_updGrad (s : List Node) (i : Nat) (δ : ℚ) :
    (updGrad s i δ).length = s.length :=
  List.length_set s i _

theorem dataOf_updGrad (s : List Node) (i : Nat) (δ : ℚ) (j : Nat) :
    dataOf (updGrad s i δ) j = dataOf s j := by
  rcases eq_or_ne j i with rfl | hne
  · rcases Nat.lt_or_ge j s.length with h | h
    · simp [dataOf, updGrad, getNode_set_self h]
    · simp [updGrad, List.set_eq_of_length_le h]
  · simp [dataOf, updGrad, getNode_set_ne hne]

theorem opOf_updGrad (s : List Node) (i : Nat) (δ : ℚ) (j : Nat) :
    opOf (updGrad s i δ) j = opOf s j := by
  rcases eq_or_ne j i with rfl | hne
  · rcases Nat.lt_or_ge j s.length with h | h
    · simp [opOf, updGrad, getNode_set_self h]
    · simp [updGrad, List.set_eq_of_length_le h]
  · simp [opOf, updGrad, getNode_set_ne hne]

theorem gradOf_updGrad_self {s : List Node} {i : Nat} (δ : ℚ)
    (h : i < s.length) : gradOf (updGrad s i δ) i = gradOf s i + δ := by
  simp [gradOf, updGrad, getNode_set_self h]

theorem gradOf_updGrad_ne {s : List Node} {i j : Nat} (δ : ℚ)
    (h : j ≠ i) : gradOf (updGrad s i δ) j = gradOf s j := by
  simp [gradOf, updGrad, getNode_set_ne h]

theorem dataOf_setGrad (s : List Node) (i : Nat) (g : ℚ) (j : Nat) :
    dataOf (setGrad s i g) j = dataOf s j := by
  rcases eq_or_ne j i with rfl | hne
  · rcases Nat.lt_or_ge j s.length with h | h
    · simp [dataOf, setGrad, getNode_set_self h]
    · simp [setGrad, List.set_eq_of_length_le h]
  · simp [dataOf, setGrad, getNode_set_ne hne]

theorem opOf_setGrad (s : List Node) (i : Nat) (g : ℚ) (j : Nat) :
    opOf (setGrad s i g) j = opOf s j := by
  rcases eq_or_ne j i with rfl | hne
  · rcases Nat.lt_or_ge j s.length with h | h
    · simp [opOf, setGrad, getNode_set_self h]
    · simp [setGrad, List.set_eq_of_length_le h]
  · simp [opOf, setGrad, getNode_set_ne hne]

/-- A node with no producer is inert under `backward_inner`, for any fuel. -/
theorem backwardInner_leaf {F : FOps} {s : List Node} {i : Nat}
    (h : opOf s i = none) : ∀ fuel, backwardInner F fuel s i = s := by
  intro fuel
  cases fuel with
  | zero => rfl
  | succ n =>
    show (match (getNode s i).op with
      | none => s
      | some op => opBackward F (backwardInner F n) s op (getNode s i).grad) = s
    rw [show (getNode s i).op = none from h]

/-- Backward propagation reads and writes only `grad` fields: every node's
`data` is untouched, at every index and for every fuel. -/
theorem dataOf_backwardInner (F : FOps) :
    ∀ fuel s i j, dataOf (backwardInner F fuel s i) j = dataOf s j := by
  intro fuel
  induction fuel with
  | zero => intro s i j; rfl
  | succ n ih =>
    intro s i j
    cases hop : (getNode s i).op with
    | none => simp [backwardInner, hop]
    | some op =>
      cases op <;>
        simp only [backwardInner, hop, opBackward] <;>
        first
          | (split <;> simp [ih, dataOf_updGrad])
          | simp [ih, dataOf_updGrad]

/-- Backward propagation also leaves every node's producer record alone. -/
theorem opOf_backwardInner (F : FOps) :
    ∀ fuel s i j, opOf (backwardInner F fuel s i) j = opOf s j := by
  intro fuel
  induction fuel with
  | zero => intro s i j; rfl
  | succ n ih =>
    intro s i j
    cases hop : (getNode s i).op with
    | none => simp [backwardInner, hop]
    | some op =>
      cases op <;>
        simp only [backwardInner, hop, opBackward] <;>
        first
          | (split <;> simp [ih, opOf_updGrad])
          | simp [ih, opOf_updGrad]

/-! ### Arena growth lemmas -/

theorem getNode_rc_self (s : List Node) (d : ℚ) (op : Option Op) :
    getNode (rcNode s d op).1 (rcNode s d op).2 = ⟨d, 0, op⟩ := by
  simp [rcNode, getNode, List.getD_append_right s [⟨d, 0, op⟩] _ s.length le_rfl]

theorem dataOf_rc_self (s : List Node) (d : ℚ) (op : Option Op) :
    dataOf (rcNode s d op).1 (rcNode s d op).2 = d := by
  rw [dataOf, getNode_rc_self]

def Grows (s s2 : List Node) : Prop :=
  s.length ≤ s2.length ∧ ∀ j, j < s.length → getNode s2 j = getNode s j

theorem grows_trans {s t u : List Node} (h1 : Grows s t) (h2 : Grows t u) :
    Grows s u :=
  ⟨le_trans h1.1 h2.1, fun j hj => (h2.2 j (lt_of_lt_of_le hj h1.1)).trans (h1.2 j hj)⟩

theorem grows_append (s u : List Node) : Grows s (s ++ u) :=
  ⟨by simp, fun _ hj => getNode_append u hj⟩

theorem Grows.dataOf {s s2 : List Node} (h : Grows s s2) {j : Nat}
    (hj : j < s.length) : dataOf s2 j = dataOf s j :=
  congrArg Node.data (h.2 j hj)

theorem rc_grows (s : List Node) (d : ℚ) (op : Option Op) :
    Grows s (rcNode s d op).1 :=
  grows_append s _

theorem rc_len (s : List Node) (d : ℚ) (op : Option Op) :
    (rcNode s d op).1.length = s.length + 1 := by simp [rcNode]

theorem vadd_grows (s : List Node) (l r : Nat) : Grows s (vadd s l r).1 :=
  grows_append s _

theorem vadd_len (s : List Node) (l r : Nat) :
    (vadd s l r).1.length = s.length + 1 := by simp [vadd, rcNode]

theorem vadd_snd (s : List Node) (l r : Nat) : (vadd s l r).2 = s.length := rfl

theorem vadd_data (s : List Node) (l r : Nat) :
    dataOf (vadd s l r).1 (vadd s l r).2 = dataOf s l + dataOf s r :=
  dataOf_rc_self s _ _

theorem vmul_data (s : List Node) (l r : Nat) :
    dataOf (vmul s l r).1 (vmul s l r).2 = dataOf s l * dataOf s r :=
  dataOf_rc_self s _ _

theorem vneg_grows (s : List Node) (v : Nat) : Grows s (vneg s v).1 :=
  grows_trans (rc_grows s (-1) none) (grows_append _ _)

theorem vneg_data {s : List Node} {v : Nat} (hv : v < s.length) :
    dataOf (vneg s v).1 (vneg s v).2 = dataOf s v * -1 := by
  show dataOf (vmul (rcNode s (-1) none).1 v (rcNode s (-1) none).2).1
      (vmul (rcNode s (-1) none).1 v (rcNode s (-1) none).2).2 = _
  rw [vmul_data, (rc_grows s (-1) none).dataOf hv, dataOf_rc_self]

theorem vsub_grows (s : List Node) (l r : Nat) : Grows s (vsub s l r).1 :=
  grows_trans (vneg_grows s r) (grows_append _ _)

theorem vsub_len (s : List Node) (l r : Nat) :
    (vsub s l r).1.length = s.length + 3 := by
  simp [vsub, vneg, vadd, vmul, rcNode]

theorem vsub_data {s : List Node} {l r : Nat} (hl : l < s.length)
    (hr : r < s.length) :
    dataOf (vsub s l r).1 (vsub s l r).2 = dataOf s l + dataOf s r * -1 := by
  show dataOf (vadd (vneg s r).1 l (vneg s r).2).1
      (vadd (vneg s r).1 l (vneg s r).2).2 = _
  have hln : (vneg s r).2 < (vneg s r).1.length := by
    show (vmul (rcNode s (-1) none).1 r (rcNode s (-1) none).2).2
      < (vmul (rcNode s (-1) none).1 r (rcNode s (-1) none).2).1.length
    simp [vmul, rc_len, rcNode]
  rw [vadd_data, (vneg_grows s r).dataOf hl, vneg_data hr]

theorem vpow_grows (F : FOps) (s : List Node) (b : Nat) (e : ℚ) :
    Grows s (vpow F s b e).1 :=
  grows_append s _

theorem vpow_data (F : FOps) (s : List Node) (b : Nat) (e : ℚ) :
    dataOf (vpow F s b e).1 (vpow F s b e).2 = F.fpow (dataOf s b) e :=
  dataOf_rc_self s _ _

theorem lossTerm_grows (F : FOps) (s : List Node) (p t : Nat) :
    Grows s (lossTerm F s p t).1 :=
  grows_trans (rc_grows s (dataOf s t) none)
    (grows_trans (vsub_grows _ _ _) (grows_append _ _))

theorem lossTerm_len (F : FOps) (s : List Node) (p t : Nat) :
    (lossTerm F s p t).1.length = s.length + 5 := by
  simp only [lossTerm]
  simp [vpow, rcNode, vsub_len]

theorem lossTerm_snd_lt (F : FOps) (s : List Node) (p t : Nat) :
    (lossTerm F s p t).2 < (lossTerm F s p t).1.length := by
  simp only [lossTerm]
  simp [vpow, rcNode]

theorem lossTerm_data (F : FOps) {s : List Node} {p t : Nat}
    (hp : p < s.length) :
    dataOf (lossTerm F s p t).1 (lossTerm F s p t).2
      = F.fpow (dataOf s p + dataOf s t * -1) 2 := by
  simp only [lossTerm]
  have hp2 : p < (rcNode s (dataOf s t) none).1.length :=
    lt_of_lt_of_le hp (rc_grows s (dataOf s t) none).1
  have htl : (rcNode s (dataOf s t) none).2 < (rcNode s (dataOf s t) none).1.length := by
    simp [rcNode]
  rw [vpow_data, vsub_data hp2 htl, (rc_grows s (dataOf s t) none).dataOf hp,
    dataOf_rc_self]




theorem lossGo_spec (F : FOps) :
    ∀ (rest : List (Nat × Nat)) (s : List Node) (acc : Nat),
      (∀ pt ∈ rest, pt.1 < s.length ∧ pt.2 < s.length) → acc < s.length →
      dataOf (lossGo F s acc rest).1 (lossGo F s acc rest).2
        = dataOf s acc
          + (rest.map fun pt => F.fpow (dataOf s pt.1 + dataOf s pt.2 * -1) 2).sum := by
  intro rest
  induction rest with
  | nil => intro s acc _ _; simp [lossGo]
  | cons pt rs ih =>
    intro s acc h hacc
    have hp := (h pt (List.mem_cons_self pt rs)).1
    have hds : Grows s (lossTerm F s pt.1 pt.2).1 := lossTerm_grows F s pt.1 pt.2
    have hsa : Grows s (vadd (lossTerm F s pt.1 pt.2).1 acc (lossTerm F s pt.1 pt.2).2).1 :=
      grows_trans hds (vadd_grows _ _ _)
    have haccd : acc < (lossTerm F s pt.1 pt.2).1.length := lt_of_lt_of_le hacc hds.1
    have ha2 : (vadd (lossTerm F s pt.1 pt.2).1 acc (lossTerm F s pt.1 pt.2).2).2
        < (vadd (lossTerm F s pt.1 pt.2).1 acc (lossTerm F s pt.1 pt.2).2).1.length := by
      rw [vadd_snd, vadd_len]; omega
    have key := ih (vadd (lossTerm F s pt.1 pt.2).1 acc (lossTerm F s pt.1 pt.2).2).1
      (vadd (lossTerm F s pt.1 pt.2).1 acc (lossTerm F s pt.1 pt.2).2).2
      (fun q hq => ⟨lt_of_lt_of_le (h q (List.mem_cons_of_mem pt hq)).1 hsa.1,
        lt_of_lt_of_le (h q (List.mem_cons_of_mem pt hq)).2 hsa.1⟩) ha2
    show dataOf (lossGo F (vadd (lossTerm F s pt.1 pt.2).1 acc (lossTerm F s pt.1 pt.2).2).1
        (vadd (lossTerm F s pt.1 pt.2).1 acc (lossTerm F s pt.1 pt.2).2).2 rs).1
        (lossGo F (vadd (lossTerm F s pt.1 pt.2).1 acc (lossTerm F s pt.1 pt.2).2).1
        (vadd (lossTerm F s pt.1 pt.2).1 acc (lossTerm F s pt.1 pt.2).2).2 rs).2 = _
    rw [key, vadd_data, hds.dataOf hacc, lossTerm_data F hp]
    have hmap : rs.map (fun q =>
          F.fpow (dataOf (vadd (lossTerm F s pt.1 pt.2).1 acc (lossTerm F s pt.1 pt.2).2).1 q.1
            + dataOf (vadd (lossTerm F s pt.1 pt.2).1 acc (lossTerm F s pt.1 pt.2).2).1 q.2 * -1) 2)
        = rs.map (fun q => F.fpow (dataOf s q.1 + dataOf s q.2 * -1) 2) := by
      apply List.map_congr_left
      intro q hq
      rw [hsa.dataOf (h q (List.mem_cons_of_mem pt hq)).1,
        hsa.dataOf (h q (List.mem_cons_of_mem pt hq)).2]
    rw [hmap]
    simp [add_assoc]


/-! ### Concrete example graphs -/

/-- Golden-value graph: leaves `a = 2.0` (index 0) and `b = 2.0` (index 1). -/
def gvA : List Node := [⟨2, 0, none⟩, ⟨2, 0, none⟩]

/-- `c = &b + &a`. -/
def gvC : List Node × Nat := vadd gvA 1 0

/-- The constant leaf `3.0` allocated by `&c * 3.0`. -/
def gvK : List Node × Nat := rcNode gvC.1 3 none

/-- `x = &c * 3.0`. -/
def gvX : List Node × Nat := vmul gvK.1 gvC.2 gvK.2

/-- The arena after `x.backward()`. -/
def gvRun : List Node := backward qops 10 gvX.1 gvX.2

/-- Claim C3: in the graph built from leaves a=2.0 and b=2.0 by c = b+a and
x = c*3.0, the forward values are c.value=4.0 and x.value=12.0, and after
`backward()` on x the gradients are x.gradient=1.0, c.gradient=3.0,
a.gradient=3.0 and b.gradient=3.0. -/
theorem chain_rule_golden_values :
    dataOf gvX.1 gvC.2 = 4 ∧ dataOf gvX.1 gvX.2 = 12 ∧
    gradOf gvRun gvX.2 = 1 ∧ gradOf gvRun gvC.2 = 3 ∧
    gradOf gvRun 0 = 3 ∧ gradOf gvRun 1 = 3 := by
  norm_num [gvRun, gvX, gvK, gvC, gvA, backward, backwardInner, opBackward,
    updGrad, setGrad, getNode, dataOf, gradOf, vadd, vmul, rcNode, qops]

/-- Leaf `x = 3.0` for the ReLU example. -/
def reluG : List Node := [⟨3, 0, none⟩]

/-- `x.relu()`. -/
def reluR : List Node × Nat := vrelu reluG 0

/-- Claim C1: evaluation of the code at the failing input.  For the positive
input x = 3.0 the forward result is 3.0, but `backward()` on the ReLU node
adds `relu_forward * upstream = 3.0 * 1.0 = 3.0` into x's gradient — the
backward rule multiplies by the cached forward result, not by the local
derivative 1, so the operand does not receive exactly the upstream
gradient. -/
theorem relu_backward_scales_by_forward :
    dataOf reluR.1 reluR.2 = 3 ∧
    gradOf (backward qops 5 reluR.1 reluR.2) 0 = 3 ∧ (3 : ℚ) ≠ 1 := by
  norm_num [reluR, reluG, backward, backwardInner, opBackward, updGrad,
    setGrad, getNode, dataOf, gradOf, vrelu, rcNode, qops]

/-- Leaves `y = 1.0` (index 0) and `z = 1.0` (index 1). -/
def amY : List Node := [⟨1, 0, none⟩, ⟨1, 0, none⟩]

/-- `t = y + z`. -/
def amT : List Node × Nat := vadd amY 0 1

/-- `b = t * t` with both operand slots aliasing node `t`. -/
def amB : List Node × Nat := vmul amT.1 amT.2 amT.2

/-- Claim C4, counterexample: on the aliased product of a non-leaf operand
`t = y + z`, the code's single combined `+= 2*t.value*g` followed by two
recursive propagations (y.grad = 8) is observably different from the spec's
"two separate `+=` of `x.value` each followed by its own recursive
propagation" (y.grad = 6), so the code does not apply the spec's two-stage
accumulation schedule. -/
theorem aliased_mul_schedule_cex :
    gradOf (backward qops 10 amB.1 amB.2) 0 = 8 ∧
    gradOf (backwardSpec qops 10 amB.1 amB.2) 0 = 6 ∧ (8 : ℚ) ≠ 6 := by
  norm_num [amB, amT, amY, backward, backwardSpec, backwardInner,
    backwardInnerSpec, opBackward, opBackwardSpec, updGrad, setGrad,
    getNode, dataOf, gradOf, vadd, vmul, rcNode, qops]

/-- Leaf `a = 3.0`. -/
def sqA : List Node := [⟨3, 0, none⟩]

/-- `b = &a * &a` (aliased operands, forward value 9.0). -/
def sqB : List Node × Nat := vmul sqA 0 0

/-- `b += &a`: in-place `add_data` of a's value, making b.value = 12.0. -/
def sqS : List Node := addData sqB.1 sqB.2 3

/-- The arena after `b.backward()`. -/
def sqRun : List Node := backward qops 10 sqS sqB.2

/-- Claim C4, amended: when both operand slots of a Mul node reference the
identical node x, the backward pass accumulates the total contribution
`2 * x.value * upstream` into x's gradient in a single combined `+=`,
followed by two recursive propagations into x; in particular for a=3.0,
b = a*a, b's value incremented in place by a's value (b.value = 12.0),
calling `backward()` on b yields b.gradient = 1.0 and a.gradient = 6.0. -/
theorem aliased_mul_backward_amended :
    (∀ (F : FOps) (fuel : Nat) (s : List Node) (x : Nat) (g : ℚ),
      opOf s x = none →
      opBackward F (backwardInner F fuel) s (Op.mul x x) g
        = updGrad s x (2 * dataOf s x * g)) ∧
    dataOf sqS sqB.2 = 12 ∧ gradOf sqRun sqB.2 = 1 ∧ gradOf sqRun 0 = 6 := by
  constructor
  · intro F fuel s x g hx
    have h1 : opOf (updGrad s x (2 * dataOf s x * g)) x = none :=
      (opOf_updGrad s x _ x).trans hx
    simp only [opBackward, if_pos rfl]
    rw [backwardInner_leaf h1, backwardInner_leaf h1]
    simp
  · norm_num [sqRun, sqS, sqB, sqA, backward, backwardInner, opBackward,
      updGrad, setGrad, addData, getNode, dataOf, gradOf, vmul, rcNode, qops]

/-- Claim C4, amended, witness: the aliased-Mul rule applied to a concrete
leaf. -/
theorem aliased_mul_backward_amended_witness :
    opOf [(⟨5, 0, none⟩ : Node)] 0 = none ∧
    opBackward qops (backwardInner qops 0) [(⟨5, 0, none⟩ : Node)] (Op.mul 0 0) 1
      = updGrad [(⟨5, 0, none⟩ : Node)] 0 (2 * dataOf [(⟨5, 0, none⟩ : Node)] 0 * 1) :=
  ⟨rfl, aliased_mul_backward_amended.1 qops 0 [⟨5, 0, none⟩] 0 1 rfl⟩

/-- A root with producer `Mul 0 1` whose gradient already holds the stale
value 7.0 from an earlier pass. -/
def owS : List Node := [⟨2, 0, none⟩, ⟨3, 0, none⟩, ⟨6, 7, some (Op.mul 0 1)⟩]

/-- The arena after `backward()` on the stale root. -/
def owRun : List Node := backward qops 5 owS 2

/-- Claim C7: `backward()` first overwrites the called node's gradient with
exactly 1.0 (not adding to a previously accumulated value) and only then
starts the recursive propagation, which therefore uses the seed 1.0: the
entry point is literally seed-then-propagate, a leaf with any prior
gradient ends at exactly 1.0, and a root with stale gradient 7.0 ends at
1.0 with its operands receiving contributions computed from 1.0. -/
theorem backward_overwrites_root_gradient :
    (∀ (F : FOps) (fuel : Nat) (s : List Node) (i : Nat),
      backward F fuel s i = backwardInner F fuel (setGrad s i 1) i) ∧
    (∀ (F : FOps) (fuel : Nat) (d g0 : ℚ),
      backward F fuel [⟨d, g0, none⟩] 0 = [⟨d, 1, none⟩]) ∧
    (gradOf owRun 2 = 1 ∧ gradOf owRun 0 = 3 ∧ gradOf owRun 1 = 2) := by
  refine ⟨fun F fuel s i => rfl, fun F fuel d g0 => ?_, ?_⟩
  · show backwardInner F fuel (setGrad [⟨d, g0, none⟩] 0 1) 0 = _
    have hset : setGrad [(⟨d, g0, none⟩ : Node)] 0 1 = [⟨d, 1, none⟩] := rfl
    rw [hset]
    exact backwardInner_leaf (show opOf [(⟨d, 1, none⟩ : Node)] 0 = none from rfl) fuel
  · norm_num [owRun, owS, backward, backwardInner, opBackward, updGrad,
      setGrad, getNode, dataOf, gradOf, qops]

/-- Leaves `a = 3.0` (index 0) and `c = 2.0` (index 1). -/
def adS : List Node := [⟨3, 0, none⟩, ⟨2, 0, none⟩]

/-- `b = a * c` (forward value 6.0). -/
def adB : List Node × Nat := vmul adS 0 1

/-- `a += 1.0` after building b: in-place `add_data`, a.value becomes 4.0. -/
def adMut : List Node := addData adB.1 0 1

/-- Claim C9, counterexample: after `a += 1.0`, a later `backward()` on
b = a*c computes c.gradient = a.value = 4.0, whereas without the increment
it computes 3.0 — the incremented amount does contribute to gradients of a
later backward pass (the Mul rule reads the operand's current data). -/
theorem add_data_gradient_cex :
    gradOf (backward qops 5 adMut adB.2) 1 = 4 ∧
    gradOf (backward qops 5 adB.1 adB.2) 1 = 3 ∧ (4 : ℚ) ≠ 3 := by
  norm_num [adMut, adB, adS, backward, backwardInner, opBackward, updGrad,
    setGrad, addData, getNode, dataOf, gradOf, vmul, rcNode, qops]

/-- Claim C9, amended: `v += r` mutates v's underlying node's value in place
by adding r's current data — the arena length is unchanged (no node is
allocated), v's gradient and producer are unchanged, and every other node
is untouched; no gradient ever flows into r through the assignment, but the
updated value does participate in later backward passes: after the
increment, `backward()` on b = a*c gives c the updated `a.value`. -/
theorem add_data_in_place_amended :
    (∀ (s : List Node) (i : Nat) (δ : ℚ) (j : Nat), j ≠ i →
      getNode (addData s i δ) j = getNode s j) ∧
    (∀ (s : List Node) (i : Nat) (δ : ℚ), i < s.length →
      (addData s i δ).length = s.length ∧
      dataOf (addData s i δ) i = dataOf s i + δ ∧
      gradOf (addData s i δ) i = gradOf s i ∧
      opOf (addData s i δ) i = opOf s i) ∧
    (∀ (s : List Node) (v r : Nat), addAssign s v r = addData s v (dataOf s r)) ∧
    gradOf (backward qops 5 adMut adB.2) 1 = dataOf adMut 0 := by
  refine ⟨fun s i δ j hj => getNode_set_ne hj, fun s i δ h => ?_,
    fun s v r => rfl, ?_⟩
  · exact ⟨List.length_set s i _,
      by simp [dataOf, addData, getNode_set_self h],
      by simp [gradOf, addData, getNode_set_self h],
      by simp [opOf, addData, getNode_set_self h]⟩
  · norm_num [adMut, adB, adS, backward, backwardInner, opBackward, updGrad,
      setGrad, addData, getNode, dataOf, gradOf, vmul, rcNode, qops]

/-- Claim C9, amended, witness: the in-place mutation facts at a concrete
arena and index. -/
theorem add_data_in_place_amended_witness :
    ((1 : Nat) ≠ 0 ∧
      getNode (addData adS 0 5) 1 = getNode adS 1) ∧
    (0 < adS.length ∧
      ((addData adS 0 5).length = adS.length ∧
        dataOf (addData adS 0 5) 0 = dataOf adS 0 + 5 ∧
        gradOf (addData adS 0 5) 0 = gradOf adS 0 ∧
        opOf (addData adS 0 5) 0 = opOf adS 0)) :=
  ⟨⟨one_ne_zero, add_data_in_place_amended.1 adS 0 5 1 one_ne_zero⟩,
    ⟨by norm_num [adS], add_data_in_place_amended.2.1 adS 0 5 (by norm_num [adS])⟩⟩


/-! ### Frame and refinement infrastructure -/

theorem Grows.take_eq {s s2 : List Node} (h : Grows s s2) :
    s2.take s.length = s := by
  apply List.ext_getElem
  · simp [List.length_take, Nat.min_eq_left h.1]
  · intro j hj1 hj2
    have e := h.2 j hj2
    rw [getNode, getNode, List.getD_eq_getElem s2 _ (lt_of_lt_of_le hj2 h.1),
      List.getD_eq_getElem s _ hj2] at e
    simp [List.getElem_take, e]

theorem vmul_grows (s : List Node) (l r : Nat) : Grows s (vmul s l r).1 :=
  grows_append s _

theorem vdiv_grows (F : FOps) (s : List Node) (l r : Nat) :
    Grows s (vdiv F s l r).1 :=
  grows_trans (vpow_grows F s r (-1)) (grows_append _ _)

theorem vtanh_grows (F : FOps) (s : List Node) (v : Nat) :
    Grows s (vtanh F s v).1 :=
  grows_append s _

theorem vexp_grows (F : FOps) (s : List Node) (v : Nat) :
    Grows s (vexp F s v).1 :=
  grows_append s _

theorem vrelu_grows (s : List Node) (v : Nat) : Grows s (vrelu s v).1 :=
  grows_append s _

/-- Claim C8: every operator (add, sub, mul, div, neg, pow, tanh, exp, relu)
leaves all pre-existing nodes — in particular its operands' value and
gradient — unchanged, only appending new nodes; and the backward pass never
mutates any node's `data` or producer, only `grad` fields. -/
theorem operators_pure_backward_grad_only :
    (∀ (s : List Node) (l r : Nat), (vadd s l r).1.take s.length = s) ∧
    (∀ (s : List Node) (l r : Nat), (vsub s l r).1.take s.length = s) ∧
    (∀ (s : List Node) (l r : Nat), (vmul s l r).1.take s.length = s) ∧
    (∀ (F : FOps) (s : List Node) (l r : Nat), (vdiv F s l r).1.take s.length = s) ∧
    (∀ (s : List Node) (v : Nat), (vneg s v).1.take s.length = s) ∧
    (∀ (F : FOps) (s : List Node) (b : Nat) (e : ℚ), (vpow F s b e).1.take s.length = s) ∧
    (∀ (F : FOps) (s : List Node) (v : Nat), (vtanh F s v).1.take s.length = s) ∧
    (∀ (F : FOps) (s : List Node) (v : Nat), (vexp F s v).1.take s.length = s) ∧
    (∀ (s : List Node) (v : Nat), (vrelu s v).1.take s.length = s) ∧
    (∀ (F : FOps) (fuel : Nat) (s : List Node) (i j : Nat),
      dataOf (backwardInner F fuel s i) j = dataOf s j ∧
      opOf (backwardInner F fuel s i) j = opOf s j) ∧
    (∀ (F : FOps) (fuel : Nat) (s : List Node) (i j : Nat),
      dataOf (backward F fuel s i) j = dataOf s j ∧
      opOf (backward F fuel s i) j = opOf s j) :=
  ⟨fun s l r => (vadd_grows s l r).take_eq,
   fun s l r => (vsub_grows s l r).take_eq,
   fun s l r => (vmul_grows s l r).take_eq,
   fun F s l r => (vdiv_grows F s l r).take_eq,
   fun s v => (vneg_grows s v).take_eq,
   fun F s b e => (vpow_grows F s b e).take_eq,
   fun F s v => (vtanh_grows F s v).take_eq,
   fun F s v => (vexp_grows F s v).take_eq,
   fun s v => (vrelu_grows s v).take_eq,
   fun F fuel s i j => ⟨dataOf_backwardInner F fuel s i j, opOf_backwardInner F fuel s i j⟩,
   fun F fuel s i j =>
     ⟨(dataOf_backwardInner F fuel _ i j).trans (dataOf_setGrad s i 1 j),
      (opOf_backwardInner F fuel _ i j).trans (opOf_setGrad s i 1 j)⟩⟩

/-- Claim C6: division is definitionally multiplication by the power −1 —
`x / y` builds the very same nodes, forward data and (hence) backward
gradients as `x * y.power(-1.0)`; negation is multiplication by a −1 leaf;
subtraction is addition of the negation; and the operation type has no
distinct Sub/Neg/Div cases — every producer is one of Add, Mul, Tanh, Exp,
Pow, ReLU. -/
theorem div_neg_sub_compositional :
    (∀ (F : FOps) (s : List Node) (l r : Nat),
      vdiv F s l r = vmul (vpow F s r (-1)).1 l (vpow F s r (-1)).2) ∧
    (∀ (F : FOps) (fuel : Nat) (s : List Node) (l r : Nat),
      backward F fuel (vdiv F s l r).1 (vdiv F s l r).2
        = backward F fuel (vmul (vpow F s r (-1)).1 l (vpow F s r (-1)).2).1
            (vmul (vpow F s r (-1)).1 l (vpow F s r (-1)).2).2) ∧
    (∀ (s : List Node) (v : Nat),
      vneg s v = vmul (rcNode s (-1) none).1 v (rcNode s (-1) none).2) ∧
    (∀ (s : List Node) (l r : Nat),
      vsub s l r = vadd (vneg s r).1 l (vneg s r).2) ∧
    (∀ o : Op, (∃ l r, o = Op.add l r) ∨ (∃ l r, o = Op.mul l r) ∨
      (∃ v t, o = Op.tanh v t) ∨ (∃ v e, o = Op.exp v e) ∨
      (∃ b e, o = Op.pow b e) ∨ (∃ d v, o = Op.relu d v)) := by
  refine ⟨fun F s l r => rfl, fun F fuel s l r => rfl, fun s v => rfl,
    fun s l r => rfl, fun o => ?_⟩
  cases o with
  | add l r => exact Or.inl ⟨l, r, rfl⟩
  | mul l r => exact Or.inr (Or.inl ⟨l, r, rfl⟩)
  | tanh v t => exact Or.inr (Or.inr (Or.inl ⟨v, t, rfl⟩))
  | exp v e => exact Or.inr (Or.inr (Or.inr (Or.inl ⟨v, e, rfl⟩)))
  | pow b e => exact Or.inr (Or.inr (Or.inr (Or.inr (Or.inl ⟨b, e, rfl⟩))))
  | relu d v => exact Or.inr (Or.inr (Or.inr (Or.inr (Or.inr ⟨d, v, rfl⟩))))

theorem pushLeaves_len : ∀ (vs : List ℚ) (s : List Node),
    (pushLeaves s vs).2.length = vs.length := by
  intro vs
  induction vs with
  | nil => intro s; rfl
  | cons v rest ih => intro s; simp [pushLeaves, ih]

/-- Claim C10: constructing a Neuron with input arity 0 fails the assertion;
for every arity n > 0 construction succeeds with exactly n weights and one
bias, so `parameters()` returns exactly n+1 handles. -/
theorem neuron_new_arity :
    (∀ (s : List Node) (rand : Nat → ℚ), neuronNew s rand 0 = none) ∧
    (∀ (s : List Node) (rand : Nat → ℚ) (nin : Nat), 0 < nin →
      ∃ s2 n, neuronNew s rand nin = some (s2, n) ∧
        n.weights.length = nin ∧ (parameters n).length = nin + 1) := by
  refine ⟨fun s rand => rfl, fun s rand nin h => ?_⟩
  have hne : nin ≠ 0 := Nat.pos_iff_ne_zero.mp h
  refine ⟨(rcNode (pushLeaves s ((List.range nin).map rand)).1 (rand nin) none).1,
    ⟨(rcNode (pushLeaves s ((List.range nin).map rand)).1 (rand nin) none).2,
      (pushLeaves s ((List.range nin).map rand)).2⟩, ?_, ?_, ?_⟩
  · simp [neuronNew, hne]
  · simp [pushLeaves_len]
  · simp [parameters, pushLeaves_len]

/-- Claim C10, witness: arity 3 yields 3 weights and 4 parameters. -/
theorem neuron_new_arity_witness :
    0 < 3 ∧ ∃ s2 n, neuronNew [] (fun _ => 0) 3 = some (s2, n) ∧
      n.weights.length = 3 ∧ (parameters n).length = 3 + 1 :=
  ⟨by norm_num, neuron_new_arity.2 [] (fun _ => 0) 3 (by norm_num)⟩

/-- Arena holding the leaves w = 1.0 (index 0), b = 2.0 (index 1) and the
input x = 3.0 (index 2). -/
def nrS : List Node := [⟨1, 0, none⟩, ⟨2, 0, none⟩, ⟨3, 0, none⟩]

/-- A neuron with bias handle 1 and single weight handle 0. -/
def nrN : Neuron := ⟨1, [0]⟩

/-- Claim C2: evaluation of the code at the failing input.  The neuron body
maps each pair to `x * w * bias` and only then sums, so with weights [1.0],
bias 2.0 and input [3.0] the argument handed to tanh is 3*1*2 = 6, not the
claimed bias-plus-dot-product 2 + 3*1 = 5; evaluation with mismatched arity
is a precondition failure. -/
theorem neuron_call_multiplies_bias :
    (∀ (F : FOps) (s : List Node) (n : Neuron) (input : List Nat),
      input.length ≠ n.weights.length → neuronCall F s n input = none) ∧
    (∀ F : FOps,
      ((neuronCall F nrS nrN [2]).map fun r => dataOf r.1 r.2)
        = some (F.ftanh 6)) ∧
    (3 * 1 * 2 : ℚ) = 6 ∧ (2 + 3 * 1 : ℚ) = 5 ∧ (6 : ℚ) ≠ 5 := by
  refine ⟨fun F s n input h => by simp [neuronCall, h], fun F => ?_,
    by norm_num, by norm_num, by norm_num⟩
  simp [neuronCall, neuronTerm, neuronAcc, vtanh, vmul, rcNode, dataOf,
    getNode, nrS, nrN]
  norm_num

/-- Claim C2, witness: the arity guard at a concrete mismatch. -/
theorem neuron_call_multiplies_bias_witness :
    ([] : List Nat).length ≠ nrN.weights.length ∧
    neuronCall qops nrS nrN [] = none :=
  ⟨by simp [nrN], neuron_call_multiplies_bias.1 qops nrS nrN [] (by simp [nrN])⟩

/-- Arena with prediction leaves 1.0 (index 0) and 2.0 (index 1) and target
leaf 1.0 (index 2). -/
def lmS : List Node := [⟨1, 0, none⟩, ⟨2, 0, none⟩, ⟨1, 0, none⟩]

/-- Claim C5, counterexample: on mismatched non-empty lengths (two
predictions, one target) the loss does not fail — zipping silently
truncates and a value is returned. -/
theorem loss_mismatch_no_failure_cex :
    ([0, 1] : List Nat).length ≠ ([2] : List Nat).length ∧
    (loss qops lmS [0, 1] [2]).isSome = true :=
  ⟨by decide, rfl⟩

/-- Claim C5, amended: the loss reduction fails (unwrap of an empty
reduction) exactly when either input sequence is empty; on a length
mismatch it silently truncates to the shorter length; and whenever it
returns a value, that value's data is the sum over the zipped pairs of
`(prediction − target)²`, built from the engine's subtract and power
operators. -/
theorem loss_truncates_amended :
    (∀ (F : FOps) (s : List Node) (pred actual : List Nat),
      loss F s pred actual = none ↔ pred = [] ∨ actual = []) ∧
    (∀ F : FOps, (∀ x : ℚ, F.fpow x 2 = x * x) →
      ∀ (s : List Node) (pred actual : List Nat),
      (∀ i ∈ pred, i < s.length) → (∀ i ∈ actual, i < s.length) →
      ∀ (s2 : List Node) (o : Nat), loss F s pred actual = some (s2, o) →
      dataOf s2 o = ((pred.zip actual).map
        fun pt => (dataOf s pt.1 - dataOf s pt.2) ^ 2).sum) := by
  constructor
  · intro F s pred actual
    cases pred with
    | nil => simp [loss]
    | cons p ps =>
      cases actual with
      | nil => simp [loss]
      | cons a as => simp [loss, List.zip_cons_cons]
  · intro F hp s pred actual h1 h2 s2 o heq
    cases pred with
    | nil => simp [loss] at heq
    | cons p ps =>
      cases actual with
      | nil => simp [loss] at heq
      | cons a as =>
        simp only [loss, List.zip_cons_cons] at heq
        have h3 := Option.some.inj heq
        have hs2 : s2 = (lossGo F (lossTerm F s p a).1 (lossTerm F s p a).2
            (ps.zip as)).1 := (congrArg Prod.fst h3).symm
        have ho : o = (lossGo F (lossTerm F s p a).1 (lossTerm F s p a).2
            (ps.zip as)).2 := (congrArg Prod.snd h3).symm
        subst hs2 ho
        have hbounds : ∀ pt ∈ ps.zip as,
            pt.1 < (lossTerm F s p a).1.length ∧
            pt.2 < (lossTerm F s p a).1.length := by
          intro pt hpt
          obtain ⟨q1, q2⟩ := pt
          obtain ⟨hm1, hm2⟩ := List.of_mem_zip hpt
          exact ⟨lt_of_lt_of_le (h1 q1 (List.mem_cons_of_mem _ hm1))
              (lossTerm_grows F s p a).1,
            lt_of_lt_of_le (h2 q2 (List.mem_cons_of_mem _ hm2))
              (lossTerm_grows F s p a).1⟩
        have key := lossGo_spec F (ps.zip as) (lossTerm F s p a).1
          (lossTerm F s p a).2 hbounds (lossTerm_snd_lt F s p a)
        rw [key, lossTerm_data F (h1 p (List.mem_cons_self p ps))]
        have hmap : (ps.zip as).map (fun pt =>
              F.fpow (dataOf (lossTerm F s p a).1 pt.1
                + dataOf (lossTerm F s p a).1 pt.2 * -1) 2)
            = (ps.zip as).map (fun pt =>
              (dataOf s pt.1 - dataOf s pt.2) ^ 2) := by
          apply List.map_congr_left
          intro q hq
          obtain ⟨q1, q2⟩ := q
          obtain ⟨hm1, hm2⟩ := List.of_mem_zip hq
          rw [(lossTerm_grows F s p a).dataOf (h1 q1 (List.mem_cons_of_mem _ hm1)),
            (lossTerm_grows F s p a).dataOf (h2 q2 (List.mem_cons_of_mem _ hm2)),
            hp]
          ring
        rw [hmap, hp]
        simp [List.zip_cons_cons]
        ring

/-- Claim C5, amended, witness: a concrete equal-length run with the exact
power semantics. -/
theorem loss_truncates_amended_witness :
    (∀ x : ℚ, qops.fpow x 2 = x * x) ∧
    dataOf (lossTerm qops lmS 0 2).1 (lossTerm qops lmS 0 2).2
      = ((([0].zip [2]).map
          fun pt => (dataOf lmS pt.1 - dataOf lmS pt.2) ^ 2).sum) := by
  have hp : ∀ x : ℚ, qops.fpow x 2 = x * x := by
    intro x
    show qpow x 2 = x * x
    rw [qpow]
    norm_num [zpow_two]
  refine ⟨hp, loss_truncates_amended.2 qops hp lmS [0] [2] ?_ ?_ _ _ rfl⟩
  · intro i hi
    simp at hi
    simp [hi, lmS]
  · intro i hi
    simp at hi
    simp [hi, lmS]

end Rustgrad
